import Mathlib

/-!
Verification of the placeholder-resolution dialog engine of the
lexsy-prototype repository against its natural-language specification.

The TypeScript sources are shallowly embedded: JavaScript strings become
`String`, `Record<string, string>` becomes an association list
`List (String × String)` (insertion order preserved, keys unique when built
by `setResp`, matching JS object semantics), JavaScript truthiness of a
string is "non-empty", and every call to the external Language-Model
Service is an oracle argument: `some out` is a successful structured reply,
`none` is a failed call (a rejected promise, which `await` turns into a
thrown exception).  JS `Date` parseability is implementation-defined, so it
is threaded through as an explicit parameter `dateParses`.
-/

namespace Lexsy

/-- JS whitespace class (`\s`) restricted to the characters relevant here;
`Char.isWhitespace` covers space, tab, CR and LF like JS does on ASCII. -/
def jsWs (c : Char) : Bool := c.isWhitespace

/-- The `String.prototype.trim` on a character list: drop leading and trailing
whitespace. -/
def trimL (l : List Char) : List Char :=
  ((l.dropWhile jsWs).reverse.dropWhile jsWs).reverse

/-- The `String.prototype.trim`. -/
def trimS (s : String) : String := ⟨trimL s.data⟩

/-- The `String.prototype.toLowerCase` (per-character, exact on ASCII input). -/
def toLowerStr (s : String) : String := ⟨s.data.map Char.toLower⟩

/-- Auxiliary for `collapseWs`: the Bool remembers whether the previous
character was inside a whitespace run already replaced by `_`. -/
def collapseWsAux : Bool → List Char → List Char
  | _, [] => []
  | prevWs, c :: rest =>
    if jsWs c then
      if prevWs then collapseWsAux true rest
      else '_' :: collapseWsAux true rest
    else c :: collapseWsAux false rest

/-- JS `str.replace(/\s+/g, "_")`: each maximal whitespace run becomes one
underscore. -/
def collapseWs (l : List Char) : List Char := collapseWsAux false l

/-- The `str.replace(/\s+/g, "_")` on strings. -/
def normWsU (s : String) : String := ⟨collapseWs s.data⟩

/-- Substring test on character lists (needle, haystack). -/
def infixL (needle : List Char) : List Char → Bool
  | [] => needle.isEmpty
  | c :: rest => needle.isPrefixOf (c :: rest) || infixL needle rest

/-- JS `hay.includes(needle)`. -/
def strIncludes (hay needle : String) : Bool := infixL needle.data hay.data

/-- First index of a character (`str.indexOf(c)` as an `Option`). -/
def idxOfChar? : List Char → Char → Option Nat
  | [], _ => none
  | x :: rest, c => if x == c then some 0 else (idxOfChar? rest c).map (· + 1)

/-- Auxiliary for `lastIdxChar`. -/
def lastIdxCharAux : List Char → Char → Nat → Int → Int
  | [], _, _, acc => acc
  | x :: rest, c, i, acc =>
    lastIdxCharAux rest c (i + 1) (if x == c then (i : Int) else acc)

/-- JS `str.lastIndexOf(c)`: last index of the character, `-1` if absent. -/
def lastIdxChar (l : List Char) (c : Char) : Int := lastIdxCharAux l c 0 (-1)

/-- JS word character class `\w` = `[A-Za-z0-9_]`. -/
def isWordChar (c : Char) : Bool := c.isAlphanum || c == '_'

/-- Whether the word `w` occurs at index `i` of `hay` with `\b` boundaries
on both sides (out-of-range neighbours count as non-word). -/
def wordAtWithBoundary (hay w : List Char) (i : Nat) : Bool :=
  w.isPrefixOf (hay.drop i) &&
  (i == 0 || !(isWordChar (hay.getD (i - 1) ' '))) &&
  !(isWordChar (hay.getD (i + w.length) ' '))

/-- JS `/\b(w1|w2|...)\b/i.test(t)`: some listed (lowercase) word occurs in
`t` with word boundaries, case-insensitively. -/
def testWords (words : List (List Char)) (t : List Char) : Bool :=
  let hay := t.map Char.toLower
  (List.range (hay.length + 1)).any fun i =>
    words.any fun w => wordAtWithBoundary hay w i

/-- Association-list lookup, JS `record[k]` (keys unique by construction). -/
def lookupResp : List (String × String) → String → Option String
  | [], _ => none
  | (k', v) :: rest, k => if k' == k then some v else lookupResp rest k

/-- Association-list update, JS `record[k] = v`: replaces in place (keeping
insertion position, like JS objects) or appends a new entry. -/
def setResp : List (String × String) → String → String → List (String × String)
  | [], k, v => [(k, v)]
  | (k', v') :: rest, k, v =>
    if k' == k then (k, v) :: rest else (k', v') :: setResp rest k v

/-- JS truthiness of `responses[k]?.trim()`: the key is present and its
value is not all whitespace. -/
def respFilled (r : List (String × String)) (k : String) : Bool :=
  !(trimS ((lookupResp r k).getD "") == "")

/-- The `PlaceholderDetected` from `lib/types.ts` (fields used by the engine;
`originalPattern` is only consumed by document regeneration). -/
structure Placeholder where
  key : String
  label : String
  type : String
  required : Bool
  description : Option String
deriving Repr, DecidableEq

/-- The `DocumentSession` restricted to the fields the dialog engine reads or
writes, plus the Orchestrator instance state `currentPlaceholderKey` /
`lastQuestion` instance state (spec §3 models them as session fields). -/
structure Session where
  placeholders : List Placeholder
  responses : List (String × String)
  skippedPlaceholders : List String
  currentPlaceholderKey : Option String
  lastQuestion : Option String
deriving Repr, DecidableEq

/-- The `BaseAgent.isComplete` = `Orchestrator.isComplete`:
`placeholders.every(p => responses[p.key]?.trim())`. -/
def isComplete (s : Session) : Bool :=
  s.placeholders.all fun p => respFilled s.responses p.key

namespace BaseAgent

/-- The `BaseAgent.getUnfilledPlaceholders`: unfilled placeholders in original
definition order, ignoring `skippedPlaceholders`. -/
def getUnfilledPlaceholders (s : Session) : List Placeholder :=
  s.placeholders.filter fun p => !(respFilled s.responses p.key)

end BaseAgent

namespace Orchestrator

/-- The `Orchestrator.getUnfilledPlaceholders`: unfilled placeholders with the
skipped ones moved to the end (original relative order kept in both
groups). -/
def getUnfilledPlaceholders (s : Session) : List Placeholder :=
  let unfilled := s.placeholders.filter fun p => !(respFilled s.responses p.key)
  (unfilled.filter fun p => !(s.skippedPlaceholders.contains p.key)) ++
    (unfilled.filter fun p => s.skippedPlaceholders.contains p.key)

end Orchestrator

/-! ### Basic lemmas about the response map -/

theorem lookupResp_setResp_self (r : List (String × String)) (k v : String) :
    lookupResp (setResp r k v) k = some v := by
  induction r with
  | nil => simp [setResp, lookupResp]
  | cons hd tl ih =>
    obtain ⟨k', v'⟩ := hd
    by_cases h : k' == k
    · simp [setResp, h, lookupResp]
    · simp [setResp, h, lookupResp, ih]

theorem lookupResp_setResp_ne (r : List (String × String)) (k v k' : String)
    (h : k' ≠ k) : lookupResp (setResp r k v) k' = lookupResp r k' := by
  induction r with
  | nil =>
    simp [setResp, lookupResp]
    intro hk
    exact absurd hk.symm h
  | cons hd tl ih =>
    obtain ⟨k₀, v₀⟩ := hd
    by_cases h₀ : k₀ == k
    · have hk₀ : k₀ = k := by simpa using h₀
      subst hk₀
      have : ¬ (k₀ == k') := by simpa using fun hh => h hh.symm
      simp [setResp, lookupResp, this]
    · by_cases h₁ : k₀ == k'
      · simp [setResp, h₀, lookupResp, h₁]
      · simp [setResp, h₀, lookupResp, h₁, ih]

theorem respFilled_congr {r₁ r₂ : List (String × String)} {k : String}
    (h : lookupResp r₁ k = lookupResp r₂ k) :
    respFilled r₁ k = respFilled r₂ k := by
  simp [respFilled, h]

theorem list_all_congr {α : Type} (l : List α) (f g : α → Bool)
    (h : ∀ a ∈ l, f a = g a) : l.all f = l.all g := by
  induction l with
  | nil => rfl
  | cons hd tl ih =>
    simp only [List.all_cons]
    rw [h hd (by simp), ih fun a ha => h a (by simp [ha])]

/-! ### C1: completion -/

/-- C1. `isComplete` is true iff every placeholder key has a non-blank entry in
`responses`; the check never reads `skippedPlaceholders` (skipped keys are
not exempt), and adding a response under a key that matches no placeholder
definition (an orphan) does not change the completion verdict.
-/
theorem isComplete_spec (s : Session) :
    (isComplete s = true ↔ ∀ p ∈ s.placeholders, respFilled s.responses p.key = true) ∧
    (∀ l, isComplete { s with skippedPlaceholders := l } = isComplete s) ∧
    (∀ k v, (∀ p ∈ s.placeholders, p.key ≠ k) →
      isComplete { s with responses := setResp s.responses k v } = isComplete s) := by
  refine ⟨?_, ?_, ?_⟩
  · simp [isComplete, List.all_eq_true]
  · intro l
    rfl
  · intro k v h
    simp only [isComplete]
    exact list_all_congr _ _ _ fun p hp =>
      respFilled_congr (lookupResp_setResp_ne _ _ _ _ (h p hp))

/-- Witness for `isComplete_spec`: a concrete session where inserting an
orphan response key leaves completion unchanged. -/
theorem isComplete_spec_witness :
    isComplete { placeholders := [⟨"company_name", "Company Name", "text", true, none⟩],
                 responses := setResp [("company_name", "Acme")] "orphan_key" "x",
                 skippedPlaceholders := [],
                 currentPlaceholderKey := none,
                 lastQuestion := none } =
    isComplete { placeholders := [⟨"company_name", "Company Name", "text", true, none⟩],
                 responses := [("company_name", "Acme")],
                 skippedPlaceholders := [],
                 currentPlaceholderKey := none,
                 lastQuestion := none } :=
  (isComplete_spec
      { placeholders := [⟨"company_name", "Company Name", "text", true, none⟩],
        responses := [("company_name", "Acme")],
        skippedPlaceholders := [],
        currentPlaceholderKey := none,
        lastQuestion := none }).2.2 "orphan_key" "x" (by decide)

/-! ### Value Extractor (`lib/agents/ExtractionAgent.ts`) -/

/-- The structured output the extractor requests from the Language-Model
Service (`PlaceholderResponseSchema`); fields are optional because the code
guards every access (`?? false`, truthiness tests). -/
structure ExtractOut where
  understood : Option Bool
  extractedValues : Option (List (String × String))
  response : Option String
  needsClarification : Option Bool
deriving Repr, DecidableEq

/-- The `ExtractionResult` as returned to the orchestrator. -/
structure ExtractionResult where
  understood : Bool
  extractedValues : List (String × String)
  response : Option String
  needsClarification : Bool
deriving Repr, DecidableEq

/-- The `ExtractionAgent.synonymMap`. -/
def synonymMap : List (String × String) :=
  [("company", "company_name"), ("company_name", "company_name"),
   ("founder_name", "founder"), ("founder", "founder")]

/-- The `reduce` that turns the `extractedValues` array of the model into a
record, skipping entries with a falsy (empty) key or value. -/
def extractRecord (items : List (String × String)) : List (String × String) :=
  items.foldl
    (fun acc it => if it.1 != "" && it.2 != "" then setResp acc it.1 it.2 else acc)
    []

/-- Key normalisation in `mapToPlaceholderKeys`: lowercase, trim, resolve
through the synonym table, otherwise collapse whitespace to underscores. -/
def normalizeExtractKey (k : String) : String :=
  let lk := trimS (toLowerStr k)
  match lookupResp synonymMap lk with
  | some m => m
  | none => normWsU lk

/-- The `ExtractionAgent.mapToPlaceholderKeys`: (a) bind to the preferred
(current) placeholder on equality/substring match of normalised key or
label, else (b) bind to an exact key/label match among all placeholders,
else (c) keep the raw model key as an orphan entry. -/
def mapToPlaceholderKeys (phs : List Placeholder) (vals : List (String × String))
    (preferredKey : Option String) : List (String × String) :=
  vals.foldl
    (fun mapped kv =>
      let mappedKey := normalizeExtractKey kv.1
      let viaPref : Option String :=
        match preferredKey with
        | none => none
        | some pk =>
          if pk == "" then none
          else
            match phs.find? (fun p => p.key == pk) with
            | none => none
            | some pp =>
              let pkN := normWsU (toLowerStr pp.key)
              let plN := normWsU (toLowerStr pp.label)
              if mappedKey == pkN || mappedKey == plN ||
                  strIncludes (toLowerStr pp.label) mappedKey ||
                  strIncludes mappedKey pkN || strIncludes mappedKey plN then
                some pp.key
              else none
      match viaPref with
      | some tk => setResp mapped tk kv.2
      | none =>
        match phs.find? (fun p =>
            p.key != "" && p.label != "" &&
            (mappedKey == normWsU (toLowerStr p.key) ||
             mappedKey == normWsU (toLowerStr p.label))) with
        | some mp => setResp mapped mp.key kv.2
        | none => setResp mapped kv.1 kv.2)
    []

/-- The body of `ExtractionAgent.extract` after a successful model call:
build the record, map keys, then write only keys that are not yet filled
into `session.responses`. Returns the `ExtractionResult` and the mutated
session. -/
def extractCore (s : Session) (preferredKey : Option String) (out : ExtractOut) :
    ExtractionResult × Session :=
  let mapped := mapToPlaceholderKeys s.placeholders
    (extractRecord (out.extractedValues.getD [])) preferredKey
  let newKeys := (mapped.map Prod.fst).filter fun k => !(respFilled s.responses k)
  ({ understood := out.understood.getD false,
     extractedValues := mapped,
     response := out.response,
     needsClarification := out.needsClarification.getD false },
   { s with responses :=
       newKeys.foldl (fun r k => setResp r k ((lookupResp mapped k).getD "")) s.responses })

/-- The `ExtractionAgent.extract` with the Language-Model Service as oracle:
`none` models a failed call. The method body has no try/catch, so a failed
call propagates as an exception (`Except.error`) before any write to
`session.responses` — the session comes back unchanged. -/
def extract (s : Session) (preferredKey : Option String) (oracle : Option ExtractOut) :
    Except Unit ExtractionResult × Session :=
  match oracle with
  | none => (Except.error (), s)
  | some out =>
    let (res, s') := extractCore s preferredKey out
    (Except.ok res, s')

/-! ### Write-set lemmas for extraction -/

theorem lookupResp_foldl_setResp (g : String → String) (ks : List String)
    (r : List (String × String)) (k : String) (h : k ∉ ks) :
    lookupResp (ks.foldl (fun a b => setResp a b (g b)) r) k = lookupResp r k := by
  induction ks generalizing r with
  | nil => rfl
  | cons hd tl ih =>
    simp only [List.foldl_cons]
    rw [ih _ (fun hk => h (by simp [hk]))]
    exact lookupResp_setResp_ne _ _ _ _ (fun hk => h (by simp [hk]))

/-- C2. Extraction never overwrites: for every key whose current response is
non-blank, running the extractor leaves that entry unchanged; and when
every key the turn offers is already filled (the repeated-answer case),
the whole response map is unchanged.
-/
theorem extract_no_overwrite (s : Session) (preferredKey : Option String)
    (out : ExtractOut) :
    (∀ k, respFilled s.responses k = true →
      lookupResp (extractCore s preferredKey out).2.responses k =
        lookupResp s.responses k) ∧
    ((∀ k ∈ (extractCore s preferredKey out).1.extractedValues.map Prod.fst,
        respFilled s.responses k = true) →
      (extractCore s preferredKey out).2.responses = s.responses) := by
  constructor
  · intro k hk
    simp only [extractCore]
    apply lookupResp_foldl_setResp
    intro hmem
    have := (List.mem_filter.mp hmem).2
    simp [hk] at this
  · intro hall
    simp only [extractCore] at hall ⊢
    have : ((mapToPlaceholderKeys s.placeholders
        (extractRecord (out.extractedValues.getD [])) preferredKey).map Prod.fst).filter
        (fun k => !(respFilled s.responses k)) = [] := by
      rw [List.filter_eq_nil_iff]
      intro k hk
      simp [hall k hk]
    rw [this]
    rfl

/-- Witness for `extract_no_overwrite`: the synonym "company" resolves to
the already-filled key `company_name`, and the response map is untouched. -/
theorem extract_no_overwrite_witness :
    respFilled [("company_name", "Acme")] "company_name" = true ∧
    (extractCore
        { placeholders := [⟨"company_name", "Company Name", "text", true, none⟩],
          responses := [("company_name", "Acme")],
          skippedPlaceholders := [],
          currentPlaceholderKey := none,
          lastQuestion := none }
        none
        { understood := some true,
          extractedValues := some [("company", "NewCo")],
          response := some "Got it.",
          needsClarification := some false }).2.responses = [("company_name", "Acme")] :=
  ⟨by decide,
   (extract_no_overwrite
      { placeholders := [⟨"company_name", "Company Name", "text", true, none⟩],
        responses := [("company_name", "Acme")],
        skippedPlaceholders := [],
        currentPlaceholderKey := none,
        lastQuestion := none }
      none
      { understood := some true,
        extractedValues := some [("company", "NewCo")],
        response := some "Got it.",
        needsClarification := some false }).2 (by decide)⟩

/-- C7 (corrected). If the Language-Model Service call inside the extractor
fails, `extract` does NOT return `understood=false / needsClarification=true /
extractedValues={}`: the method body has no try/catch, so the failure
propagates to the caller as an exception; the session (in particular
`responses`) is left unchanged because the write happens after the call.
-/
theorem extract_failure_propagates (s : Session) (preferredKey : Option String) :
    extract s preferredKey none = (Except.error (), s) := rfl

/-- Counterexample for C7 as stated: at a concrete session, a failed model
call makes `extract` propagate an error rather than return any
`ExtractionResult` at all (so in particular not the claimed defaults). -/
theorem extract_failure_propagates_cex :
    extract
      { placeholders := [⟨"company_name", "Company Name", "text", true, none⟩],
        responses := [],
        skippedPlaceholders := [],
        currentPlaceholderKey := none,
        lastQuestion := none }
      (some "company_name") none =
    (Except.error (),
      { placeholders := [⟨"company_name", "Company Name", "text", true, none⟩],
        responses := [],
        skippedPlaceholders := [],
        currentPlaceholderKey := none,
        lastQuestion := none }) := rfl

/-! ### Intent Classifier (`ClassifierAgent`) -/

/-- The structured classification output requested from the service;
optional fields model absent/falsy values (`parsed.queryType || "answer"`,
`parsed.confidence || 0.5`). -/
structure ClassifyOut where
  queryType : Option String
  confidence : Option ℚ
  reasoning : Option String
deriving Repr, DecidableEq

/-- The `ClassificationResult`. -/
structure ClassificationResult where
  queryType : String
  confidence : ℚ
  reasoning : Option String
deriving Repr, DecidableEq

/-- The `ClassifierAgent.classify` with the service as oracle. The session only
feeds the prompt, not the result. There is no try/catch around the model
call, so a failed call (`none`) propagates as an exception. On success,
a falsy `queryType` (missing or empty) defaults to `"answer"` and a falsy
`confidence` (missing or `0`) defaults to `0.5`. -/
def classify (s : Session) (oracle : Option ClassifyOut) :
    Except Unit ClassificationResult :=
  match s, oracle with
  | _, none => Except.error ()
  | _, some out =>
    Except.ok
      { queryType := if out.queryType.getD "" == "" then "answer" else out.queryType.getD "",
        confidence := if out.confidence.getD 0 == 0 then 1 / 2 else out.confidence.getD 0,
        reasoning := out.reasoning }

/-- C8 (corrected). On a successful service call `classify` always returns a
classification whose `queryType` defaults to `"answer"` exactly when the
`queryType` of the structured output is missing or empty; a low-confidence
output keeps its model-returned `queryType` unchanged; and a failed
service call propagates as an exception instead of returning `"answer"`.
-/
theorem classify_success_defaults (s : Session) (q : String) (c : ℚ)
    (rsn : Option String) :
    classify s (some { queryType := some q, confidence := some c, reasoning := rsn }) =
      Except.ok { queryType := if q == "" then "answer" else q,
                  confidence := if c == 0 then 1 / 2 else c,
                  reasoning := rsn } ∧
    classify s (some { queryType := none, confidence := none, reasoning := rsn }) =
      Except.ok { queryType := "answer", confidence := 1 / 2, reasoning := rsn } ∧
    classify s none = Except.error () := by
  refine ⟨rfl, ?_, rfl⟩
  simp [classify]

/-- Counterexample for C8 as stated: at a concrete session a failed service
call yields an exception, not `queryType = "answer"`; and a successful but
low-confidence output keeps `queryType = "skip"`. -/
theorem classify_failure_propagates_cex :
    classify
      { placeholders := [⟨"company_name", "Company Name", "text", true, none⟩],
        responses := [],
        skippedPlaceholders := [],
        currentPlaceholderKey := none,
        lastQuestion := none } none = Except.error () ∧
    classify
      { placeholders := [⟨"company_name", "Company Name", "text", true, none⟩],
        responses := [],
        skippedPlaceholders := [],
        currentPlaceholderKey := none,
        lastQuestion := none }
      (some { queryType := some "skip", confidence := some (1 / 10), reasoning := none }) =
      Except.ok { queryType := "skip", confidence := 1 / 10, reasoning := none } := by
  constructor
  · rfl
  · simp [classify]

/-! ### Validator (`ValidationAgent`) -/

/-- The `ValidationResult`. -/
structure ValidationResult where
  isValid : Bool
  errors : List String
  warnings : List String
  suggestions : Option (List String)
deriving Repr, DecidableEq

/-- The structured plausibility output requested from the service
(`ValidationSchema`); fields optional to model `?? true` / `|| []`. -/
structure ValidOut where
  isValid : Option Bool
  errors : Option (List String)
  warnings : Option (List String)
  suggestions : Option (List String)
deriving Repr, DecidableEq

/-- The email regex `/^[^\s@]+@[^\s@]+\.[^\s@]+$/`: no whitespace anywhere,
exactly one `@` with non-empty sides, and the part after `@` has a dot that
is neither its first nor its last character. -/
def emailOk (v : String) : Bool :=
  let l := v.data
  !(l.any jsWs) && l.count '@' == 1 &&
  (let a := l.takeWhile fun c => c != '@'
   let b := (l.dropWhile fun c => c != '@').drop 1
   !a.isEmpty && !b.isEmpty && (b.drop 1).dropLast.contains '.')

/-- The `value.replace(/[^0-9.-]/g, "")`: keep only digits, dots and minus. -/
def stripNonNumeric (v : String) : List Char :=
  v.data.filter fun c => c.isDigit || c == '.' || c == '-'

/-- The `!isNaN(parseFloat(s))` for a string over the alphabet `[0-9.-]`:
after an optional leading minus the string must start with a digit or with
a dot followed by a digit. -/
def parseFloatOk (l : List Char) : Bool :=
  let body := if l.head? == some '-' then l.drop 1 else l
  match body with
  | [] => false
  | c :: rest => c.isDigit || (c == '.' && ((rest.head?.map Char.isDigit).getD false))

/-- The `ValidationAgent.validateType`: the deterministic stage-1 type check.
JS `Date` parseability is implementation-defined and passed in as
`dateParses`; `v.length` is the code-unit length, which coincides with
`String.length` on the ASCII values exercised here. -/
def validateType (dateParses : String → Bool) (ty v : String) : ValidationResult :=
  let errors : List String :=
    if ty == "email" then (if emailOk v then [] else ["Invalid email format"])
    else if ty == "date" then (if dateParses v then [] else ["Invalid date format"])
    else if ty == "number" || ty == "currency" then
      (if parseFloatOk (stripNonNumeric v) then []
       else ["Invalid " ++ ty ++ " format"])
    else if ty == "text" then (if trimS v == "" then ["Value cannot be empty"] else [])
    else []
  let warnings : List String :=
    if ty == "address" && v.length < 10 then
      ["Address seems short - please include street, city, and state/zip"]
    else []
  { isValid := errors.isEmpty, errors := errors, warnings := warnings,
    suggestions := none }

/-- The `ValidationAgent.validateValue`: placeholder lookup, stage-1 type check
with early return on stage-1 errors, then the stage-2 plausibility call
(oracle); a failed stage-2 call (`none`) falls back to the stage-1 result,
a successful one is returned verbatim with `isValid ?? true` and
`errors/warnings || []`. -/
def validateValue (dateParses : String → Bool) (s : Session) (key value : String)
    (oracle : Option ValidOut) : ValidationResult :=
  match s.placeholders.find? (fun p => p.key == key) with
  | none =>
    { isValid := false, errors := ["Placeholder not found"], warnings := [],
      suggestions := none }
  | some p =>
    let basic := validateType dateParses p.type value
    if !basic.isValid then basic
    else
      match oracle with
      | none => basic
      | some parsed =>
        { isValid := parsed.isValid.getD true,
          errors := parsed.errors.getD [],
          warnings := parsed.warnings.getD [],
          suggestions := parsed.suggestions }

/-- Helper: when the stage-1 check fails, `validateValue` returns the
stage-1 result for every stage-2 oracle outcome (the early return fires
before the stage-2 call). -/
theorem validateValue_of_stage1_invalid (dateParses : String → Bool)
    (s : Session) (key value : String) (p : Placeholder) (o : Option ValidOut)
    (hfind : s.placeholders.find? (fun q => q.key == key) = some p)
    (hinvalid : (validateType dateParses p.type value).isValid = false) :
    validateValue dateParses s key value o = validateType dateParses p.type value := by
  cases o with
  | none => simp [validateValue, hfind, hinvalid]
  | some parsed => simp [validateValue, hfind, hinvalid]

/-- C5. When stage 1 reports no errors and the stage-2 plausibility call
fails, `validateValue` returns exactly the stage-1 result (same `isValid`,
`errors` and `warnings`): the stage-2 failure is non-fatal and never
propagates.
-/
theorem validateValue_stage2_failure_returns_stage1 (dateParses : String → Bool)
    (s : Session) (key value : String) (p : Placeholder)
    (hfind : s.placeholders.find? (fun q => q.key == key) = some p)
    (hvalid : (validateType dateParses p.type value).isValid = true) :
    validateValue dateParses s key value none = validateType dateParses p.type value := by
  simp [validateValue, hfind, hvalid]

/-- Witness for `validateValue_stage2_failure_returns_stage1` at a concrete
text placeholder. -/
theorem validateValue_stage2_failure_witness :
    validateValue (fun _ => false)
      { placeholders := [⟨"company_name", "Company Name", "text", true, none⟩],
        responses := [],
        skippedPlaceholders := [],
        currentPlaceholderKey := none,
        lastQuestion := none } "company_name" "Acme" none =
    validateType (fun _ => false) "text" "Acme" :=
  validateValue_stage2_failure_returns_stage1 (fun _ => false)
    { placeholders := [⟨"company_name", "Company Name", "text", true, none⟩],
      responses := [],
      skippedPlaceholders := [],
      currentPlaceholderKey := none,
      lastQuestion := none } "company_name" "Acme"
    ⟨"company_name", "Company Name", "text", true, none⟩ (by decide) (by decide)

/-- C4 (corrected). Stage-1 errors are authoritative and never dropped: when
the deterministic type check fails, `validateValue` returns exactly the
stage-1 result whatever the stage-2 oracle does — in particular
`"not-an-email"` for an email placeholder yields
`isValid=false, errors=["Invalid email format"]` for every stage-2 outcome.
But when stage 1 passes and stage 2 succeeds, the result is the stage-2
output verbatim with `isValid` taken from its `isValid` flag (default
true), not recomputed from its error list, so `isValid = true` can coexist
with non-empty stage-2 errors.
-/
theorem validateValue_stage1_authoritative (dateParses : String → Bool)
    (s : Session) (key value : String) (p : Placeholder)
    (oracle : Option ValidOut)
    (hfind : s.placeholders.find? (fun q => q.key == key) = some p)
    (hinvalid : (validateType dateParses p.type value).isValid = false) :
    validateValue dateParses s key value oracle = validateType dateParses p.type value ∧
    (∀ o, validateValue (fun _ => false)
        { placeholders := [⟨"email", "Email", "email", true, none⟩],
          responses := [],
          skippedPlaceholders := [],
          currentPlaceholderKey := none,
          lastQuestion := none } "email" "not-an-email" o =
      { isValid := false, errors := ["Invalid email format"], warnings := [],
        suggestions := none }) := by
  constructor
  · exact validateValue_of_stage1_invalid dateParses s key value p oracle hfind hinvalid
  · intro o
    rw [validateValue_of_stage1_invalid (fun _ => false)
      { placeholders := [⟨"email", "Email", "email", true, none⟩],
        responses := [],
        skippedPlaceholders := [],
        currentPlaceholderKey := none,
        lastQuestion := none } "email" "not-an-email"
      ⟨"email", "Email", "email", true, none⟩ o (by decide) (by decide)]
    decide

/-- Witness for `validateValue_stage1_authoritative` at the concrete email
placeholder and value from the spec. -/
theorem validateValue_stage1_authoritative_witness :
    validateValue (fun _ => false)
      { placeholders := [⟨"email", "Email", "email", true, none⟩],
        responses := [],
        skippedPlaceholders := [],
        currentPlaceholderKey := none,
        lastQuestion := none } "email" "not-an-email"
      (some { isValid := some true, errors := some [], warnings := some [],
              suggestions := none }) =
    validateType (fun _ => false) "email" "not-an-email" :=
  (validateValue_stage1_authoritative (fun _ => false)
    { placeholders := [⟨"email", "Email", "email", true, none⟩],
      responses := [],
      skippedPlaceholders := [],
      currentPlaceholderKey := none,
      lastQuestion := none } "email" "not-an-email"
    ⟨"email", "Email", "email", true, none⟩
    (some { isValid := some true, errors := some [], warnings := some [],
            suggestions := none })
    (by decide) (by decide)).1

/-- Counterexample for C4 as stated ("isValid is true only if neither
stage reports an error"): stage 1 passes `a@b.c`, stage 2 succeeds and
reports an error in its list while flagging `isValid = true`; the code
returns `isValid = true` with a non-empty error list. -/
theorem validateValue_stage2_error_ignored :
    validateValue (fun _ => false)
      { placeholders := [⟨"email", "Email", "email", true, none⟩],
        responses := [],
        skippedPlaceholders := [],
        currentPlaceholderKey := none,
        lastQuestion := none } "email" "a@b.c"
      (some { isValid := some true, errors := some ["Email domain looks wrong"],
              warnings := some [], suggestions := none }) =
    { isValid := true, errors := ["Email domain looks wrong"], warnings := [],
      suggestions := none } := by decide

/-- C10. For every value, a placeholder type outside the six handled cases
(email, date, number, currency, address, text) — e.g. `signature` — makes
the stage-1 deterministic check return `isValid = true` with empty errors
and warnings.
-/
theorem validateType_unknown_type_valid (dateParses : String → Bool) (ty v : String)
    (h : ty ∉ ["email", "date", "number", "currency", "address", "text"]) :
    validateType dateParses ty v =
      { isValid := true, errors := [], warnings := [], suggestions := none } := by
  simp only [List.mem_cons, List.not_mem_nil, or_false] at h
  push_neg at h
  obtain ⟨h1, h2, h3, h4, h5, h6⟩ := h
  simp [validateType, h1, h2, h3, h4, h5, h6]

/-- Witness for `validateType_unknown_type_valid` at type `signature` and
the empty value. -/
theorem validateType_unknown_type_valid_witness :
    validateType (fun _ => false) "signature" "" =
      { isValid := true, errors := [], warnings := [], suggestions := none } :=
  validateType_unknown_type_valid (fun _ => false) "signature" "" (by decide)

/-! ### Question Generator (`QuestionAgent`) -/

namespace QuestionAgent

/-- The placeholder `QuestionAgent.getNextQuestion` asks about:
`this.getUnfilledPlaceholders()[0]`, i.e. the first unfilled placeholder in
original definition order via `BaseAgent.getUnfilledPlaceholders` —
`skippedPlaceholders` is not consulted here. -/
def target (s : Session) : Option Placeholder :=
  (BaseAgent.getUnfilledPlaceholders s).head?

/-- The `QuestionAgent.getNextQuestion` as a function of the generated text
`gen` (the Language-Model reply): when no unfilled placeholder remains it
returns the fixed completion sentence and `gen` is never consulted (the
model is not called); otherwise it returns the model text, with the local
fallback for an empty reply. -/
def getNextQuestion (s : Session) (gen : String) : String :=
  match target s with
  | none => "All placeholders are filled. I can generate your completed document now."
  | some _ => if gen == "" then "What should we fill in next?" else gen

end QuestionAgent

/-- C6 (code bug). The claimed target-selection policy (unfilled non-skipped
placeholders first, skipped appended last) is what
`Orchestrator.getUnfilledPlaceholders` computes, but the question text is
generated by `QuestionAgent.getNextQuestion`, whose target is the first
unfilled placeholder in original definition order ignoring
`skippedPlaceholders`: with placeholders `a` (unfilled, skipped) and `b`
(unfilled, not skipped) the policy selects `b` while the generated question
targets `a`. The completion part holds: with everything filled,
`getNextQuestion` returns the fixed completion sentence whatever text the
model would give.
-/
theorem questionTarget_ignores_skip :
    QuestionAgent.target
      { placeholders := [⟨"a", "A", "text", true, none⟩, ⟨"b", "B", "text", true, none⟩],
        responses := [],
        skippedPlaceholders := ["a"],
        currentPlaceholderKey := none,
        lastQuestion := none } = some ⟨"a", "A", "text", true, none⟩ ∧
    (Orchestrator.getUnfilledPlaceholders
      { placeholders := [⟨"a", "A", "text", true, none⟩, ⟨"b", "B", "text", true, none⟩],
        responses := [],
        skippedPlaceholders := ["a"],
        currentPlaceholderKey := none,
        lastQuestion := none }).head? = some ⟨"b", "B", "text", true, none⟩ ∧
    QuestionAgent.getNextQuestion
      { placeholders := [⟨"a", "A", "text", true, none⟩],
        responses := [("a", "done")],
        skippedPlaceholders := [],
        currentPlaceholderKey := none,
        lastQuestion := none } "ignored model text" =
      "All placeholders are filled. I can generate your completed document now." := by
  refine ⟨by decide, by decide, by decide⟩

/-! ### Explanation post-processing (C9) -/

/-- The interrogative cue words of
`/\b(what|which|who|where|when|why|how|is|are|can|will|would|should|do|does|did)\b/i`. -/
def questionWords : List (List Char) :=
  ["what".data, "which".data, "who".data, "where".data, "when".data, "why".data,
   "how".data, "is".data, "are".data, "can".data, "will".data, "would".data,
   "should".data, "do".data, "does".data, "did".data]

/-- The boundary scan of `stripQuestionsFromAcknowledgment` on the text
before the first `?`: find the last `.`/`!` boundary (its index must be
`> 0`), drop the whole trailing sentence when it starts with an
interrogative cue word, else only the fragment after the boundary; with no
boundary, blank the text when the whole prefix looks interrogative. -/
def stripAckCore (beforeQ : List Char) : List Char :=
  let lastB : Int := max (lastIdxChar beforeQ '.') (lastIdxChar beforeQ '!')
  if 0 < lastB then
    if testWords questionWords (trimL (beforeQ.drop (lastB.toNat + 1))) then
      trimL (beforeQ.take (lastB.toNat + 1))
    else trimL beforeQ
  else if testWords questionWords (trimL beforeQ) then []
  else trimL beforeQ

/-- The re-termination step shared by both strippers: append `.` to a
non-empty result unless its last character passes `stop`
(`/[.!]$/` resp. `/[.!?]$/`). -/
def appendPeriodUnless (stop : Char → Bool) (cleaned : List Char) : List Char :=
  match cleaned.getLast? with
  | none => cleaned
  | some c => if stop c then cleaned else cleaned ++ ['.']

namespace Orchestrator

/-- The `Orchestrator.stripQuestionsFromAcknowledgment`: no-op on text without
`?`, otherwise boundary-scan the prefix before the first `?`,
re-terminate with `.`, and substitute the fixed fallback when everything
was removed. -/
def stripQuestionsFromAcknowledgment (text : String) : String :=
  if text == "" then text
  else
    match idxOfChar? text.data '?' with
    | none => trimS text
    | some qi =>
      let cleaned2 := appendPeriodUnless (fun c => c == '.' || c == '!')
        (stripAckCore (text.data.take qi))
      if cleaned2.isEmpty then "I\x27ve noted that." else ⟨cleaned2⟩

end Orchestrator

/-- Drop through `hay` to just after the first occurrence of segment `s`. -/
def dropToSeg : List Char → List Char → Option (List Char)
  | hay, s =>
    if s.isPrefixOf hay then some (hay.drop s.length)
    else
      match hay with
      | [] => none
      | _ :: t => dropToSeg t s

/-- A literal-segment pattern of `ExplanationAgent.stripTrailingQuestions`:
the regex `/seg₁.*?seg₂.*?$/i` matches starting at an index where `seg₁`
occurs, with `seg₂` somewhere after, and so on. -/
def segsAfter : List Char → List (List Char) → Bool
  | _, [] => true
  | hay, s :: rest =>
    match dropToSeg hay s with
    | none => false
    | some h => segsAfter h rest

/-- The pattern matches when anchored at the current position: the first
segment starts exactly here, later segments follow in order. -/
def segsAt (hay : List Char) : List (List Char) → Bool
  | [] => true
  | s :: rest => s.isPrefixOf hay && segsAfter (hay.drop s.length) rest

/-- The `text.match(pattern).index`: the smallest index at which the pattern
matches (the `.*?$` tail always succeeds). -/
def matchIdx (hay : List Char) (segs : List (List Char)) : Option Nat :=
  (List.range (hay.length + 1)).find? fun i => segsAt (hay.drop i) segs

/-- The ordered question patterns of
`ExplanationAgent.stripTrailingQuestions`, as lowercase literal segments of
the case-insensitive regexes. -/
def qPatterns : List (List (List Char)) :=
  [["do you have any other questions".data],
   ["would you like to discuss".data],
   ["are there any other".data, "questions".data],
   ["can i help with anything else".data],
   ["would you like to continue".data],
   ["any other".data, "questions".data],
   ["do you want to".data, "continue".data],
   ["should we".data, "move on".data]]

/-- First pattern (in list order) with a match, and its match index. -/
def firstPatternIdx : List (List (List Char)) → List Char → Option Nat
  | [], _ => none
  | p :: rest, hay =>
    match matchIdx hay p with
    | some i => some i
    | none => firstPatternIdx rest hay

/-- The `ExplanationAgent.stripTrailingQuestions`: trim, cut the first matching
known trailing-question phrase, re-terminate with a period when something
was cut and text remains, and return the ORIGINAL text when the result is
empty (`return cleaned || text`). -/
def stripTrailingQuestions (text : String) : String :=
  let t0 := trimS text
  match firstPatternIdx qPatterns (t0.data.map Char.toLower) with
  | none => if t0 == "" then text else t0
  | some i =>
    let cleaned2 := appendPeriodUnless (fun c => c == '.' || c == '!' || c == '?')
      (trimL (t0.data.take i))
    if cleaned2.isEmpty then text else ⟨cleaned2⟩

/-! ### Membership lemmas for the strippers -/

theorem mem_trimL {c : Char} {l : List Char} (h : c ∈ trimL l) : c ∈ l := by
  unfold trimL at h
  rw [List.mem_reverse] at h
  have h1 := (List.dropWhile_sublist (l := (l.dropWhile jsWs).reverse) jsWs).subset h
  rw [List.mem_reverse] at h1
  exact (List.dropWhile_sublist jsWs).subset h1

theorem mem_stripAckCore {c : Char} {l : List Char} (h : c ∈ stripAckCore l) :
    c ∈ l := by
  simp only [stripAckCore] at h
  split at h
  · split at h
    · exact (List.take_sublist _ _).subset (mem_trimL h)
    · exact mem_trimL h
  · split at h
    · simp at h
    · exact mem_trimL h

theorem mem_appendPeriodUnless {stop : Char → Bool} {cl : List Char} {x : Char}
    (h : x ∈ appendPeriodUnless stop cl) : x ∈ cl ∨ x = '.' := by
  unfold appendPeriodUnless at h
  split at h
  · exact Or.inl h
  · split at h
    · exact Or.inl h
    · rcases List.mem_append.mp h with h' | h'
      · exact Or.inl h'
      · simp at h'
        exact Or.inr h'

theorem idxOfChar?_none {l : List Char} {c : Char}
    (h : idxOfChar? l c = none) : c ∉ l := by
  induction l with
  | nil => simp
  | cons x rest ih =>
    simp only [idxOfChar?] at h
    split at h
    · exact absurd h (by simp)
    · rename_i hx
      intro hmem
      rcases List.mem_cons.mp hmem with rfl | hmem'
      · simp at hx
      · exact ih (by simpa using h) hmem'

theorem idxOfChar?_take {l : List Char} {c : Char} {i : Nat}
    (h : idxOfChar? l c = some i) : c ∉ l.take i := by
  induction l generalizing i with
  | nil => simp
  | cons x rest ih =>
    simp only [idxOfChar?] at h
    split at h
    · have : i = 0 := by simpa using h.symm
      subst this
      simp
    · rename_i hx
      rw [Option.map_eq_some'] at h
      obtain ⟨j, hj, hji⟩ := h
      subst hji
      simp only [List.take_succ_cons]
      intro hmem
      rcases List.mem_cons.mp hmem with rfl | hmem'
      · simp at hx
      · exact ih hj hmem'

theorem appendPeriodUnless_last3 {cl : List Char}
    (hne : appendPeriodUnless (fun c => c == '.' || c == '!' || c == '?') cl ≠ []) :
    (appendPeriodUnless (fun c => c == '.' || c == '!' || c == '?') cl).getLast? = some '.' ∨
    (appendPeriodUnless (fun c => c == '.' || c == '!' || c == '?') cl).getLast? = some '!' ∨
    (appendPeriodUnless (fun c => c == '.' || c == '!' || c == '?') cl).getLast? = some '?' := by
  unfold appendPeriodUnless at hne ⊢
  split at hne
  · rename_i hl
    rw [List.getLast?_eq_none_iff] at hl
    exact absurd hl hne
  · rename_i x hl
    split at hne
    · rename_i hstop
      simp only [Bool.or_eq_true, beq_iff_eq] at hstop
      rw [if_pos (by simp only [Bool.or_eq_true, beq_iff_eq]; exact hstop)]
      rcases hstop with (rfl | rfl) | rfl
      · exact Or.inl hl
      · exact Or.inr (Or.inl hl)
      · exact Or.inr (Or.inr hl)
    · rename_i hstop
      rw [if_neg hstop]
      left
      exact List.getLast?_concat _

/-- C9 (corrected). The two post-processing passes live on different paths:
the acknowledgment stripper of the orchestrator implements the boundary-scan
algorithm and its output never contains `?` at all (the fixed fallback
included); `stripTrailingQuestions` on the explanation path only cuts the
enumerated trailing continue-phrases, re-terminating with a period — its
result is the original text, its trim, or ends in `.`/`!`/`?` — and since
it falls back to the ORIGINAL text when stripping empties it, explanation
output can still end with a question mark.
-/
theorem strip_postprocessing_spec (t : String) :
    ((Orchestrator.stripQuestionsFromAcknowledgment t).data.all fun c => c != '?') = true ∧
    (stripTrailingQuestions t = t ∨ stripTrailingQuestions t = trimS t ∨
      (stripTrailingQuestions t).data.getLast? = some '.' ∨
      (stripTrailingQuestions t).data.getLast? = some '!' ∨
      (stripTrailingQuestions t).data.getLast? = some '?') := by
  constructor
  · rw [List.all_eq_true]
    intro c hc
    rw [bne_iff_ne]
    revert hc
    simp only [Orchestrator.stripQuestionsFromAcknowledgment]
    split
    · rename_i ht
      rw [eq_of_beq ht]
      intro hc
      simp at hc
    · split
      · rename_i hnone
        intro hc hq
        subst hq
        exact idxOfChar?_none hnone (mem_trimL hc)
      · rename_i qi hqi
        split
        · intro hc hq
          subst hq
          exact absurd hc (by decide)
        · intro hc hq
          subst hq
          rcases mem_appendPeriodUnless hc with h' | h'
          · exact idxOfChar?_take hqi (mem_stripAckCore h')
          · simp at h'
  · simp only [stripTrailingQuestions]
    split
    · split
      · exact Or.inl rfl
      · exact Or.inr (Or.inl rfl)
    · split
      · exact Or.inl rfl
      · rename_i hne
        right; right
        exact appendPeriodUnless_last3 (by simpa using hne)

/-- Counterexample for C9 as stated: the explanation path returns a text
that still ends with an unanswered question — stripping
`"Do you have any other questions?"` empties the text, and the code falls
back to the original instead of the claimed fixed fallback. -/
theorem stripTrailingQuestions_keeps_question :
    stripTrailingQuestions "Do you have any other questions?" =
      "Do you have any other questions?" ∧
    (stripTrailingQuestions "Do you have any other questions?").data.getLast? =
      some '?' := by
  constructor
  · decide
  · decide

/-! ### Orchestrator handlers (session-state semantics)

Handlers are modelled as functions on the session state; oracle replies
(extraction output, generated question text) are explicit arguments, and
message assembly / validation calls are omitted because they never touch
the session. A failing model call throws before any session mutation, so
only completed handler runs are modelled. -/

/-- The `/^(yes|yeah|yep|yup|sure|ok|okay|continue|lets go|lets continue (apostrophes elided here))\b/i`
alternatives (the regex is applied to the lowercased trimmed message). -/
def continueStarts : List String :=
  ["yes", "yeah", "yep", "yup", "sure", "ok", "okay", "continue",
   "let\x27s go", "let\x27s continue"]

/-- The `isContinueRequest` test of `Orchestrator.handleGeneral`: the
normalized message starts with one of the alternatives followed by a word
boundary. -/
def isContinueRequest (msg : String) : Bool :=
  let n := (trimS (toLowerStr msg)).data
  continueStarts.any fun a =>
    a.data.isPrefixOf n && !(isWordChar (n.getD a.data.length ' '))

namespace Orchestrator

/-- The `placeholderForExtraction` of `handleAnswer`: the current placeholder
key if truthy, else the first unfilled placeholder (skip-aware order). -/
def answerPref (s : Session) : Option String :=
  match s.currentPlaceholderKey with
  | some k =>
    if k == "" then (getUnfilledPlaceholders s).head?.map Placeholder.key
    else some k
  | none => (getUnfilledPlaceholders s).head?.map Placeholder.key

/-- The shared post-extraction session logic of `handleAnswer` and
`handleCorrection`: extract (writing unfilled keys), drop every extracted
key from `skippedPlaceholders`, then — unless complete — advance
`currentPlaceholderKey` to the first unfilled placeholder and record the
generated question `q` as `lastQuestion`. -/
def postExtract (s : Session) (pref : Option String) (out : ExtractOut) (q : String) :
    Session :=
  let res := (extractCore s pref out).1
  let s1 := (extractCore s pref out).2
  let s2 := { s1 with skippedPlaceholders :=
    (res.extractedValues.map Prod.fst).foldl (fun l x => l.erase x) s1.skippedPlaceholders }
  if isComplete s2 then s2
  else { s2 with
    currentPlaceholderKey := (getUnfilledPlaceholders s2).head?.map Placeholder.key,
    lastQuestion := some q }

/-- The `Orchestrator.handleAnswer` (session effect). -/
def handleAnswer (s : Session) (out : ExtractOut) (q : String) : Session :=
  postExtract s (answerPref s) out q

/-- The `Orchestrator.handleCorrection` (session effect): same as answer but
the extraction context uses `currentPlaceholderKey` without fallback. -/
def handleCorrection (s : Session) (out : ExtractOut) (q : String) : Session :=
  postExtract s s.currentPlaceholderKey out q

/-- The `Orchestrator.handleClarification` (session effect): extract first (the
user may actually be answering; the write into `responses` happens here),
re-dispatch as answer on a confident extraction, otherwise re-ask —
without ever touching `skippedPlaceholders`. -/
def handleClarification (s : Session) (out1 out2 : ExtractOut) (q : String) : Session :=
  let res := (extractCore s s.currentPlaceholderKey out1).1
  let s1 := (extractCore s s.currentPlaceholderKey out1).2
  if !res.extractedValues.isEmpty && !res.needsClarification then
    handleAnswer s1 out2 q
  else if isComplete s1 then s1
  else if s1.lastQuestion.getD "" != "" then s1
  else { s1 with
    currentPlaceholderKey := (getUnfilledPlaceholders s1).head?.map Placeholder.key,
    lastQuestion := some q }

/-- The `Orchestrator.handleQuestion` (session effect): re-ask the same
question when the turn lexically refers to it (contains
what/that/this/mean and a last question exists), else advance. -/
def handleQuestion (s : Session) (userMessage q : String) : Session :=
  let isAbout := (s.lastQuestion.getD "" != "") &&
    (strIncludes (toLowerStr userMessage) "what" ||
     strIncludes (toLowerStr userMessage) "that" ||
     strIncludes (toLowerStr userMessage) "this" ||
     strIncludes (toLowerStr userMessage) "mean")
  if !(isComplete s) then
    if isAbout then s
    else { s with
      currentPlaceholderKey := (getUnfilledPlaceholders s).head?.map Placeholder.key,
      lastQuestion := some q }
  else s

/-- The `Orchestrator.handleGeneral` (session effect): advance on an
affirmative continuation of an incomplete session, else explain only. -/
def handleGeneral (s : Session) (userMessage q : String) : Session :=
  if isContinueRequest userMessage && !(isComplete s) then
    { s with
      currentPlaceholderKey := (getUnfilledPlaceholders s).head?.map Placeholder.key,
      lastQuestion := some q }
  else s

/-- The placeholder `handleSkip` skips: the current one if truthy, else the
first unfilled placeholder. -/
def skipTarget (s : Session) : Option String :=
  match s.currentPlaceholderKey with
  | some k =>
    if k == "" then (getUnfilledPlaceholders s).head?.map Placeholder.key
    else some k
  | none => (getUnfilledPlaceholders s).head?.map Placeholder.key

/-- The `Orchestrator.handleSkip` (session effect): push the target onto
`skippedPlaceholders` if absent; when complete, resume on the first
unfilled skipped placeholder if any; else advance to the next unfilled
placeholder. -/
def handleSkip (s : Session) (q : String) : Session :=
  match skipTarget s with
  | none => s
  | some k =>
    let s1 := if s.skippedPlaceholders.contains k then s
      else { s with skippedPlaceholders := s.skippedPlaceholders ++ [k] }
    if isComplete s1 then
      match (s1.placeholders.filter fun p =>
          s1.skippedPlaceholders.contains p.key && !(respFilled s1.responses p.key)).head? with
      | some np => { s1 with currentPlaceholderKey := some np.key, lastQuestion := some q }
      | none => s1
    else
      { s1 with
        currentPlaceholderKey := (getUnfilledPlaceholders s1).head?.map Placeholder.key,
        lastQuestion := some q }

end Orchestrator

/-- The C3 invariant as a boolean: no skipped key has a non-blank
response. -/
def sessionInv (s : Session) : Bool :=
  s.skippedPlaceholders.all fun k => !(respFilled s.responses k)

/-- Precondition for the skip handler: `currentPlaceholderKey` is absent,
falsy, or refers to an unfilled placeholder (which is what the
updates of the orchestrator itself establish while the session is incomplete). -/
def currentUnfilledOk (s : Session) : Bool :=
  match s.currentPlaceholderKey with
  | none => true
  | some k => k == "" || !(respFilled s.responses k)

/-! ### Invariant-preservation lemmas -/

theorem head?_mem {α : Type} {l : List α} {a : α} (h : l.head? = some a) : a ∈ l := by
  cases l with
  | nil => simp at h
  | cons x t =>
    simp only [List.head?_cons, Option.some.injEq] at h
    subst h
    exact List.mem_cons_self x t

theorem mem_orchUnfilled_unfilled {s : Session} {p : Placeholder}
    (h : p ∈ Orchestrator.getUnfilledPlaceholders s) :
    respFilled s.responses p.key = false := by
  unfold Orchestrator.getUnfilledPlaceholders at h
  rcases List.mem_append.mp h with h' | h' <;>
  · have := List.mem_of_mem_filter h'
    have hf := List.of_mem_filter this
    simpa using hf

theorem mem_foldl_erase {ks l : List String} {k : String}
    (h : k ∈ ks.foldl (fun a b => a.erase b) l) : k ∈ l := by
  induction ks generalizing l with
  | nil => exact h
  | cons hd tl ih => exact List.mem_of_mem_erase (ih h)

theorem not_mem_foldl_erase {ks l : List String} {k : String} (hnd : l.Nodup)
    (hk : k ∈ ks) : k ∉ ks.foldl (fun a b => a.erase b) l := by
  induction ks generalizing l with
  | nil => simp at hk
  | cons hd tl ih =>
    simp only [List.foldl_cons]
    rcases List.mem_cons.mp hk with rfl | hk'
    · intro hmem
      have hke : k ∈ l.erase k := mem_foldl_erase hmem
      exact absurd ((hnd.mem_erase_iff).mp hke).1 (by simp)
    · exact ih (hnd.erase hd) hk'

theorem respFilled_after_extract_writes (resp0 : List (String × String))
    (mapped : List (String × String)) (k : String)
    (hk : k ∉ mapped.map Prod.fst) :
    respFilled
      (((mapped.map Prod.fst).filter fun x => !(respFilled resp0 x)).foldl
        (fun r x => setResp r x ((lookupResp mapped x).getD "")) resp0) k =
    respFilled resp0 k := by
  apply respFilled_congr
  apply lookupResp_foldl_setResp
  intro hmem
  exact hk (List.mem_of_mem_filter hmem)

theorem sessionInv_postExtract (s : Session) (pref : Option String) (out : ExtractOut)
    (q : String) (hInv : sessionInv s = true) (hNd : s.skippedPlaceholders.Nodup) :
    sessionInv (Orchestrator.postExtract s pref out q) = true := by
  have hfields :
      (Orchestrator.postExtract s pref out q).skippedPlaceholders =
        (((extractCore s pref out).1.extractedValues.map Prod.fst).foldl
          (fun l x => l.erase x) s.skippedPlaceholders) ∧
      (Orchestrator.postExtract s pref out q).responses =
        (extractCore s pref out).2.responses := by
    simp only [Orchestrator.postExtract]
    split <;> exact ⟨rfl, rfl⟩
  have hresp : (extractCore s pref out).2.responses =
      ((((extractCore s pref out).1.extractedValues.map Prod.fst).filter
          fun x => !(respFilled s.responses x)).foldl
        (fun r x => setResp r x
          ((lookupResp ((extractCore s pref out).1.extractedValues) x).getD ""))
        s.responses) := rfl
  simp only [sessionInv, List.all_eq_true, Bool.not_eq_true'] at hInv ⊢
  intro k hk
  rw [hfields.1] at hk
  rw [hfields.2, hresp]
  have hknm : k ∉ (extractCore s pref out).1.extractedValues.map Prod.fst :=
    fun hm => not_mem_foldl_erase hNd hm hk
  rw [respFilled_after_extract_writes _ _ _ hknm]
  exact hInv k (mem_foldl_erase hk)

theorem sessionInv_append (s : Session) (k : String) (hInv : sessionInv s = true)
    (hk : respFilled s.responses k = false) :
    sessionInv { s with skippedPlaceholders := s.skippedPlaceholders ++ [k] } = true := by
  simp only [sessionInv, List.all_eq_true, Bool.not_eq_true'] at hInv ⊢
  intro x hx
  rcases List.mem_append.mp hx with h | h
  · exact hInv x h
  · simp only [List.mem_singleton] at h
    subst h
    exact hk

theorem skipTarget_unfilled {s : Session} {k : String}
    (hcur : currentUnfilledOk s = true) (h : Orchestrator.skipTarget s = some k) :
    respFilled s.responses k = false := by
  unfold Orchestrator.skipTarget at h
  cases hc : s.currentPlaceholderKey with
  | none =>
    rw [hc] at h
    have h' : Option.map Placeholder.key (Orchestrator.getUnfilledPlaceholders s).head? =
        some k := h
    rw [Option.map_eq_some'] at h'
    obtain ⟨p, hp, rfl⟩ := h'
    exact mem_orchUnfilled_unfilled (head?_mem hp)
  | some k0 =>
    rw [hc] at h
    have h' : (if (k0 == "") = true then
        Option.map Placeholder.key (Orchestrator.getUnfilledPlaceholders s).head?
      else some k0) = some k := h
    by_cases hk0 : (k0 == "") = true
    · rw [if_pos hk0] at h'
      rw [Option.map_eq_some'] at h'
      obtain ⟨p, hp, rfl⟩ := h'
      exact mem_orchUnfilled_unfilled (head?_mem hp)
    · rw [if_neg hk0] at h'
      have hkk : k0 = k := by simpa using h'
      subst hkk
      unfold currentUnfilledOk at hcur
      rw [hc] at hcur
      have hcur' : (k0 == "" || !(respFilled s.responses k0)) = true := hcur
      simp only [Bool.or_eq_true] at hcur'
      rcases hcur' with h1 | h1
      · exact absurd h1 hk0
      · simpa using h1

/-- C3 (corrected). Assuming the invariant "no skipped key has a non-blank
response" holds (and `skippedPlaceholders` has no duplicates, as the
guarded push maintains), it is preserved by the answer, correction,
question and general handlers, and by the skip handler whenever
`currentPlaceholderKey` is absent, falsy, or unfilled. It is NOT preserved
by the clarification handler (see the counterexample), whose extraction
attempt writes values into `responses` without removing the filled keys
from `skippedPlaceholders`.
-/
theorem handlers_preserve_skip_invariant (s : Session) (out : ExtractOut)
    (msg q : String) (hInv : sessionInv s = true)
    (hNd : s.skippedPlaceholders.Nodup) :
    sessionInv (Orchestrator.handleAnswer s out q) = true ∧
    sessionInv (Orchestrator.handleCorrection s out q) = true ∧
    sessionInv (Orchestrator.handleQuestion s msg q) = true ∧
    sessionInv (Orchestrator.handleGeneral s msg q) = true ∧
    (currentUnfilledOk s = true → sessionInv (Orchestrator.handleSkip s q) = true) := by
  refine ⟨sessionInv_postExtract s _ out q hInv hNd,
          sessionInv_postExtract s _ out q hInv hNd, ?_, ?_, ?_⟩
  · simp only [Orchestrator.handleQuestion]
    split
    · split
      · exact hInv
      · exact hInv
    · exact hInv
  · simp only [Orchestrator.handleGeneral]
    split
    · exact hInv
    · exact hInv
  · intro hcur
    simp only [Orchestrator.handleSkip]
    split
    · exact hInv
    · rename_i k htgt
      have hk : respFilled s.responses k = false := skipTarget_unfilled hcur htgt
      by_cases hcont : (s.skippedPlaceholders.contains k) = true
      · rw [if_pos hcont]
        split
        · split
          · exact hInv
          · exact hInv
        · exact hInv
      · rw [if_neg hcont]
        have hsA : sessionInv
            { s with skippedPlaceholders := s.skippedPlaceholders ++ [k] } = true :=
          sessionInv_append s k hInv hk
        split
        · split
          · exact hsA
          · exact hsA
        · exact hsA

/-- Witness for `handlers_preserve_skip_invariant` at a concrete session
(`b` skipped and unfilled, `a` current and unfilled): the invariant still
holds after the answer handler fills `a`. -/
theorem handlers_preserve_skip_invariant_witness :
    sessionInv (Orchestrator.handleAnswer
      { placeholders := [⟨"a", "A", "text", true, none⟩, ⟨"b", "B", "text", true, none⟩],
        responses := [],
        skippedPlaceholders := ["b"],
        currentPlaceholderKey := some "a",
        lastQuestion := some "What is A?" }
      { understood := some true,
        extractedValues := some [("a", "value for a")],
        response := some "Noted.",
        needsClarification := some false } "What is B?") = true :=
  (handlers_preserve_skip_invariant
    { placeholders := [⟨"a", "A", "text", true, none⟩, ⟨"b", "B", "text", true, none⟩],
      responses := [],
      skippedPlaceholders := ["b"],
      currentPlaceholderKey := some "a",
      lastQuestion := some "What is A?" }
    { understood := some true,
      extractedValues := some [("a", "value for a")],
      response := some "Noted.",
      needsClarification := some false }
    "hello" "What is B?" (by decide) (by decide)).1

/-- Counterexample for C3 as stated: the skipped, unfilled placeholder
`name` is filled by the extraction attempt of the clarification handler
(`needsClarification = true`, so no re-dispatch), and stays in
`skippedPlaceholders` with a non-blank response — the invariant held
before the handler and fails after it. -/
theorem clarification_breaks_skip_invariant :
    sessionInv
      { placeholders := [⟨"name", "Name", "text", true, none⟩],
        responses := [],
        skippedPlaceholders := ["name"],
        currentPlaceholderKey := some "name",
        lastQuestion := some "What is the name?" } = true ∧
    sessionInv (Orchestrator.handleClarification
      { placeholders := [⟨"name", "Name", "text", true, none⟩],
        responses := [],
        skippedPlaceholders := ["name"],
        currentPlaceholderKey := some "name",
        lastQuestion := some "What is the name?" }
      { understood := some true,
        extractedValues := some [("name", "Acme Corp")],
        response := some "Noted.",
        needsClarification := some true }
      { understood := some false,
        extractedValues := some [],
        response := none,
        needsClarification := some true } "q") = false := by
  constructor
  · decide
  · decide

end Lexsy
